import Mathlib

/-!
# Verification of the FirestoreKG adjacency-consistency engine

Shallow embedding of `src/databases/firestore_kg.py` (class `FirestoreKG`).
The Firestore document store is modelled as association lists keyed by
string document ids (one list per collection); `get`/`set`/`delete` on a
document become `getDoc`/`setDoc`/`delDoc`.  Operations that raise Python
exceptions are modelled as `Option`-valued functions returning `none` on
the raising paths.
-/

set_option maxRecDepth 4000

namespace FirestoreKG

/-- Modelled from the spec: `datamodel/data_model.py` is not under `src/`,
so the `NodeData` record shape follows the spec (§3, §6): a uid-keyed node
document carries an attribute bag (here a textual `description`) and the
two adjacency sets `edges_to` / `edges_from`, each a set of uid. -/
structure NodeData where
  description : String
  edges_to : Finset String
  edges_from : Finset String
deriving DecidableEq

/-- Modelled from the spec: `datamodel/data_model.py` is not under `src/`,
so the `EdgeData` input shape follows the spec (§3, §6):
`{source_uid, target_uid, description, directed}`. -/
structure EdgeData where
  source_uid : String
  target_uid : String
  description : String
  directed : Bool
deriving DecidableEq

/-- An edge document as written by `_update_egde_coll`
(`firestore_kg.py` lines 471-482). -/
structure EdgeDoc where
  edge_uid : String
  source_uid : String
  target_uid : String
  description : String
  directed : Bool
deriving DecidableEq

/-- The store state: the node collection and the edge collection, each an
association list of (document id, document). -/
structure KGState where
  nodes : List (String × NodeData)
  edges : List (String × EdgeDoc)
deriving DecidableEq

/-- `db.collection(c).document(k).get()`: first binding of key `k`. -/
def getDoc {α : Type} : List (String × α) → String → Option α
  | [], _ => none
  | (k, v) :: rest, key => if k = key then some v else getDoc rest key

/-- `doc_ref.set(v)` / full-record `update(v)`: replace the binding of the
key, or append a fresh binding. -/
def setDoc {α : Type} : List (String × α) → String → α → List (String × α)
  | [], key, v => [(key, v)]
  | (k, w) :: rest, key, v =>
      if k = key then (k, v) :: rest else (k, w) :: setDoc rest key v

/-- `doc_ref.delete()`: drop the binding of the key. -/
def delDoc {α : Type} : List (String × α) → String → List (String × α)
  | [], _ => []
  | (k, v) :: rest, key =>
      if k = key then delDoc rest key else (k, v) :: delDoc rest key

/-! ## The operations of `FirestoreKG` -/

/-- `get_node` (lines 132-146): returns the node document, `KeyError`
(here `none`) when absent. -/
def get_node (st : KGState) (node_uid : String) : Option NodeData :=
  getDoc st.nodes node_uid

/-- `node_exist` (lines 509-517). -/
def node_exist (st : KGState) (node_uid : String) : Bool :=
  (getDoc st.nodes node_uid).isSome

/-- `_generate_edge_uid` (lines 506-507): `f"{source_uid}_to_{target_uid}"`. -/
def generate_edge_uid (source_uid target_uid : String) : String :=
  source_uid ++ "_to_" ++ target_uid

/-- `get_edge` (lines 288-304): looks the edge collection up by the
forward id only; `KeyError` (`none`) when absent. -/
def get_edge (st : KGState) (source_uid target_uid : String) : Option EdgeDoc :=
  getDoc st.edges (generate_edge_uid source_uid target_uid)

/-- `edge_exist` (lines 519-529). -/
def edge_exist (st : KGState) (source_uid target_uid : String) : Bool :=
  (getDoc st.edges (generate_edge_uid source_uid target_uid)).isSome

/-- `_update_egde_coll` (lines 471-482): upsert of the edge document. -/
def update_egde_coll (st : KGState) (edge_uid source_uid target_uid description : String)
    (directed : Bool) : KGState :=
  { st with
    edges := setDoc st.edges edge_uid
      ⟨edge_uid, source_uid, target_uid, description, directed⟩ }

/-- `add_node` (lines 81-130): `ValueError` (`none`) when the uid already
exists or the supplied adjacency sets are non-empty; otherwise writes the
record.  (The trailing neighbor-reference loops of the source iterate over
`edges_to`/`edges_from`, which the guard has just forced to be empty, so
they perform no writes.)  Note: the uid is NOT validated against the
reserved `_to_` delimiter. -/
def add_node (st : KGState) (node_uid : String) (node_data : NodeData) :
    Option KGState :=
  if (getDoc st.nodes node_uid).isSome then none
  else if node_data.edges_to ≠ ∅ ∨ node_data.edges_from ≠ ∅ then none
  else some { st with nodes := setDoc st.nodes node_uid node_data }

/-- `update_node` (lines 148-171): `KeyError` (`none`) when absent,
otherwise writes the full record. -/
def update_node (st : KGState) (node_uid : String) (node_data : NodeData) :
    Option KGState :=
  if (getDoc st.nodes node_uid).isSome then
    some { st with nodes := setDoc st.nodes node_uid node_data }
  else none

/-- `add_edge` (lines 217-286).  Both endpoint documents are read into
local objects *before* any write (lines 245-246); each `update_node` then
writes the whole local object back, which is what the chain of `setDoc`s
below mirrors (including the stale-snapshot overwrite this causes when
`source_uid = target_uid`).  `none` models the `KeyError` when an endpoint
is missing. -/
def add_edge (st : KGState) (e : EdgeData) : Option KGState :=
  match get_node st e.source_uid, get_node st e.target_uid with
  | some src0, some tgt0 =>
    let src1 := { src0 with edges_to := insert e.target_uid src0.edges_to }
    let st1 := { st with nodes := setDoc st.nodes e.source_uid src1 }
    let tgt1 := { tgt0 with edges_from := insert e.source_uid tgt0.edges_from }
    let st2 := { st1 with nodes := setDoc st1.nodes e.target_uid tgt1 }
    let st3 := update_egde_coll st2
      (generate_edge_uid e.source_uid e.target_uid)
      e.source_uid e.target_uid e.description e.directed
    if e.directed then some st3
    else
      let tgt2 := { tgt1 with edges_to := insert e.source_uid tgt1.edges_to }
      let st4 := { st3 with nodes := setDoc st3.nodes e.target_uid tgt2 }
      let src2 := { src1 with edges_from := insert e.target_uid src1.edges_from }
      let st5 := { st4 with nodes := setDoc st4.nodes e.source_uid src2 }
      some (update_egde_coll st5
        (generate_edge_uid e.target_uid e.source_uid)
        e.target_uid e.source_uid e.description e.directed)
  | _, _ => none

/-- `remove_edge` (lines 362-424).  The edge record is read first to learn
`directed`; both endpoint objects are read before any write and mutated
cumulatively (the Python mutates the same two local objects through the
undirected branch).  `list.remove(x)` raises `ValueError` when `x` is
absent, modelled by the membership guards. -/
def remove_edge (st : KGState) (source_uid target_uid : String) : Option KGState :=
  match get_edge st source_uid target_uid with
  | none => none
  | some edge_data =>
    match get_node st source_uid, get_node st target_uid with
    | some src0, some tgt0 =>
      if target_uid ∈ src0.edges_to then
        let src1 := { src0 with edges_to := src0.edges_to.erase target_uid }
        let st1 := { st with nodes := setDoc st.nodes source_uid src1 }
        if source_uid ∈ tgt0.edges_from then
          let tgt1 := { tgt0 with edges_from := tgt0.edges_from.erase source_uid }
          let st2 := { st1 with nodes := setDoc st1.nodes target_uid tgt1 }
          let st3 := { st2 with
            edges := delDoc st2.edges (generate_edge_uid source_uid target_uid) }
          if edge_data.directed then some st3
          else
            if target_uid ∈ src1.edges_from then
              let src2 := { src1 with edges_from := src1.edges_from.erase target_uid }
              let st4 := { st3 with nodes := setDoc st3.nodes source_uid src2 }
              if source_uid ∈ tgt1.edges_to then
                let tgt2 := { tgt1 with edges_to := tgt1.edges_to.erase source_uid }
                let st5 := { st4 with nodes := setDoc st4.nodes target_uid tgt2 }
                some { st5 with
                  edges := delDoc st5.edges (generate_edge_uid target_uid source_uid) }
              else none
            else none
        else none
      else none
    | _, _ => none

/-- `remove_node` (lines 173-215).  The removed node's own adjacency is
snapshotted once (line 188); pass 1 strips `node_uid` from the `edges_to`
of every *existing* neighbor listed in the snapshot's `edges_from`
(a missing neighbor is skipped silently, lines 198-200), pass 2
symmetrically strips it from neighbors' `edges_from`; finally the node
document is deleted.  Since each loop iteration is a read-modify-write of
a distinct document key, the two passes are rendered as keyed maps over
the node collection.  The edge collection is not touched (the source's
TODO at line 180). -/
def remove_node (st : KGState) (node_uid : String) : Option KGState :=
  match getDoc st.nodes node_uid with
  | none => none
  | some node_data =>
    let nodes1 := st.nodes.map (fun p =>
      if p.1 ∈ node_data.edges_from then
        (p.1, { p.2 with edges_to := p.2.edges_to.erase node_uid })
      else p)
    let nodes2 := nodes1.map (fun p =>
      if p.1 ∈ node_data.edges_to then
        (p.1, { p.2 with edges_from := p.2.edges_from.erase node_uid })
      else p)
    some { st with nodes := delDoc nodes2 node_uid }

/-- Degree-zero test of `clean_zerodegree_nodes` (line 555):
`len(edges_to) + len(edges_from) == 0`. -/
def zeroDegree (nd : NodeData) : Bool :=
  nd.edges_to.card + nd.edges_from.card == 0

/-- `clean_zerodegree_nodes` (lines 547-561): scan the node collection for
degree-zero documents, then remove each collected uid via `remove_node`
(whose `KeyError` propagates, modelled by the `Option` fold). -/
def clean_zerodegree_nodes (st : KGState) : Option KGState :=
  let nodes_to_remove := (st.nodes.filter (fun p => zeroDegree p.2)).map Prod.fst
  nodes_to_remove.foldlM remove_node st


/-! ## The reserved delimiter and the NetworkX materializer -/

/-- The characters of the reserved delimiter `"_to_"`. -/
def sepChars : List Char := ['_', 't', 'o', '_']

/-- `pat` occurs as a contiguous subsequence of `l` (executable). -/
def containsSeq (pat : List Char) (l : List Char) : Bool :=
  pat.isPrefixOf l ||
    match l with
    | [] => false
    | _ :: rest => containsSeq pat rest

/-- The first three characters of the delimiter, `"_to"`: a proper
self-overlap of `"_to_"` (its length-3 border side), relevant to
collision analysis of `_generate_edge_uid`. -/
def sepTail : List Char := ['_', 't', 'o']

/-- The in-memory graph object built by `build_networkx` (line 429):
`nx.Graph()` is an *undirected simple* graph — node set plus a set of
unordered edges, one entry per edge. -/
structure NXGraph where
  nodes : List String
  edges : List (String × String)
deriving DecidableEq

/-- `nx.Graph.add_node`: upsert of a node. -/
def nxAddNode (g : NXGraph) (u : String) : NXGraph :=
  if u ∈ g.nodes then g else { g with nodes := g.nodes ++ [u] }

/-- `nx.Graph.has_edge`: an undirected edge `{u, v}` is present. -/
def nxHasEdge (g : NXGraph) (u v : String) : Bool :=
  g.edges.any (fun p => (p.1 == u && p.2 == v) || (p.1 == v && p.2 == u))

/-- `nx.Graph.add_edge`: adds missing endpoints, then the undirected edge
unless it is already present (re-adding an existing edge of a simple
graph only merges attributes, of which this call site passes none). -/
def nxAddEdge (g : NXGraph) (u v : String) : NXGraph :=
  let g1 := nxAddNode (nxAddNode g u) v
  if nxHasEdge g1 u v then g1 else { g1 with edges := g1.edges ++ [(u, v)] }

/-- Number of parallel copies of the undirected edge `{u, v}`. -/
def nxEdgeMultiplicity (g : NXGraph) (u v : String) : Nat :=
  g.edges.countP (fun p => (p.1 == u && p.2 == v) || (p.1 == v && p.2 == u))

/-- `build_networkx` (lines 426-446): stream every node document into the
graph, then `add_edge(source_uid, target_uid)` for every edge document. -/
def build_networkx (st : KGState) : NXGraph :=
  let g1 := st.nodes.foldl (fun g p => nxAddNode g p.1) ⟨[], []⟩
  st.edges.foldl (fun g p => nxAddEdge g p.2.source_uid p.2.target_uid) g1

/-! ## Lemmas about the document-store primitives -/

@[simp]
theorem getDoc_setDoc_self {α : Type} (l : List (String × α)) (k : String) (v : α) :
    getDoc (setDoc l k v) k = some v := by
  induction l with
  | nil => simp [getDoc, setDoc]
  | cons p rest ih =>
      obtain ⟨k', w⟩ := p
      by_cases h : k' = k <;> simp [getDoc, setDoc, h, ih]

@[simp]
theorem getDoc_setDoc_ne {α : Type} (l : List (String × α)) (k k' : String) (v : α)
    (h : k' ≠ k) : getDoc (setDoc l k v) k' = getDoc l k' := by
  induction l with
  | nil => simp [getDoc, setDoc, Ne.symm h]
  | cons p rest ih =>
      obtain ⟨k'', w⟩ := p
      by_cases h1 : k'' = k
      · subst h1
        simp [getDoc, setDoc, Ne.symm h]
      · simp [getDoc, setDoc, h1, ih]

theorem setDoc_setDoc {α : Type} (l : List (String × α)) (k : String) (v w : α) :
    setDoc (setDoc l k v) k w = setDoc l k w := by
  induction l with
  | nil => simp [setDoc]
  | cons p rest ih =>
      obtain ⟨k', u⟩ := p
      by_cases h : k' = k <;> simp [setDoc, h, ih]

theorem setDoc_getDoc_eq {α : Type} (l : List (String × α)) (k : String) (v : α)
    (h : getDoc l k = some v) : setDoc l k v = l := by
  induction l with
  | nil => simp [getDoc] at h
  | cons p rest ih =>
      obtain ⟨k', w⟩ := p
      by_cases hk : k' = k
      · subst hk
        simp [getDoc] at h
        simp [setDoc, h]
      · simp [getDoc, hk] at h
        simp [setDoc, hk, ih h]

@[simp]
theorem getDoc_delDoc_self {α : Type} (l : List (String × α)) (k : String) :
    getDoc (delDoc l k) k = none := by
  induction l with
  | nil => simp [getDoc, delDoc]
  | cons p rest ih =>
      obtain ⟨k', w⟩ := p
      by_cases h : k' = k <;> simp [getDoc, delDoc, h, ih]

@[simp]
theorem getDoc_delDoc_ne {α : Type} (l : List (String × α)) (k k' : String)
    (h : k' ≠ k) : getDoc (delDoc l k) k' = getDoc l k' := by
  induction l with
  | nil => simp [getDoc, delDoc]
  | cons p rest ih =>
      obtain ⟨k'', w⟩ := p
      by_cases h1 : k'' = k
      · subst h1
        simp [getDoc, delDoc, Ne.symm h, ih]
      · simp [getDoc, delDoc, h1, ih]

theorem mem_delDoc {α : Type} (l : List (String × α)) (k : String)
    (p : String × α) : p ∈ delDoc l k ↔ p ∈ l ∧ p.1 ≠ k := by
  induction l with
  | nil => simp [delDoc]
  | cons q rest ih =>
      obtain ⟨k', w⟩ := q
      by_cases h : k' = k
      · rw [show delDoc ((k', w) :: rest) k = delDoc rest k by simp [delDoc, h]]
        rw [ih]
        simp only [List.mem_cons]
        constructor
        · rintro ⟨hp, hne⟩
          exact ⟨Or.inr hp, hne⟩
        · rintro ⟨hp | hp, hne⟩
          · exact absurd ((congrArg Prod.fst hp).trans h) hne
          · exact ⟨hp, hne⟩
      · rw [show delDoc ((k', w) :: rest) k = (k', w) :: delDoc rest k by
          simp [delDoc, h]]
        simp only [List.mem_cons, ih]
        constructor
        · rintro (hp | ⟨hp, hne⟩)
          · exact ⟨Or.inl hp, by simp [hp, h]⟩
          · exact ⟨Or.inr hp, hne⟩
        · rintro ⟨hp | hp, hne⟩
          · exact Or.inl hp
          · exact Or.inr ⟨hp, hne⟩


/-! ## Claim C1 -/

/-- C1 (amended: the two endpoints must be distinct).  For distinct
existing nodes `source ≠ target`, not already connected, a successful
`add_edge` with `directed = true` puts `target` into
`get_node(source).edges_to`, `source` into `get_node(target).edges_from`,
and `get_edge(source, target)` returns a record with `directed = true`. -/
theorem C1_add_edge_directed (st : KGState) (e : EdgeData) (sd td : NodeData)
    (hd : e.directed = true)
    (hne : e.source_uid ≠ e.target_uid)
    (hs : get_node st e.source_uid = some sd)
    (ht : get_node st e.target_uid = some td)
    (hnc : e.target_uid ∉ sd.edges_to) :
    ∃ st', add_edge st e = some st' ∧
      (∃ sd', get_node st' e.source_uid = some sd' ∧ e.target_uid ∈ sd'.edges_to) ∧
      (∃ td', get_node st' e.target_uid = some td' ∧ e.source_uid ∈ td'.edges_from) ∧
      (∃ ed, get_edge st' e.source_uid e.target_uid = some ed ∧ ed.directed = true) := by
  simp only [add_edge, hs, ht, hd, if_true]
  refine ⟨_, rfl, ?_, ?_, ?_⟩
  · refine ⟨{ sd with edges_to := insert e.target_uid sd.edges_to }, ?_,
      Finset.mem_insert_self _ _⟩
    simp [get_node, update_egde_coll, hne]
  · refine ⟨{ td with edges_from := insert e.source_uid td.edges_from }, ?_,
      Finset.mem_insert_self _ _⟩
    simp [get_node, update_egde_coll]
  · refine ⟨⟨generate_edge_uid e.source_uid e.target_uid, e.source_uid,
      e.target_uid, e.description, true⟩, ?_, rfl⟩
    simp [get_edge, update_egde_coll]

/-- Witness for C1 at nodes `a`, `b` with no prior edges. -/
theorem C1_add_edge_directed_witness :
    ((⟨"a", "b", "r", true⟩ : EdgeData).directed = true ∧
      ("a" : String) ≠ "b" ∧
      get_node ⟨[("a", ⟨"", ∅, ∅⟩), ("b", ⟨"", ∅, ∅⟩)], []⟩ "a" = some ⟨"", ∅, ∅⟩ ∧
      get_node ⟨[("a", ⟨"", ∅, ∅⟩), ("b", ⟨"", ∅, ∅⟩)], []⟩ "b" = some ⟨"", ∅, ∅⟩ ∧
      "b" ∉ ((∅ : Finset String))) ∧
    (∃ st', add_edge ⟨[("a", ⟨"", ∅, ∅⟩), ("b", ⟨"", ∅, ∅⟩)], []⟩
        (⟨"a", "b", "r", true⟩ : EdgeData) = some st' ∧
      (∃ sd', get_node st' "a" = some sd' ∧ "b" ∈ sd'.edges_to) ∧
      (∃ td', get_node st' "b" = some td' ∧ "a" ∈ td'.edges_from) ∧
      (∃ ed, get_edge st' "a" "b" = some ed ∧ ed.directed = true)) :=
  ⟨⟨rfl, by decide, by decide, by decide, by decide⟩,
    C1_add_edge_directed ⟨[("a", ⟨"", ∅, ∅⟩), ("b", ⟨"", ∅, ∅⟩)], []⟩
      ⟨"a", "b", "r", true⟩ ⟨"", ∅, ∅⟩ ⟨"", ∅, ∅⟩ rfl (by decide) (by decide)
      (by decide) (by decide)⟩

/-- Counterexample to C1 as stated: for the pair `(a, a)` of one existing
node (a self-loop), `add_edge(directed=true)` completes successfully but
`a ∉ get_node(a).edges_to`: the target-side write at line 255 writes back
the stale snapshot of the same document taken at line 246, undoing the
`edges_to` insertion of line 250. -/
theorem C1_counterexample_selfloop :
    add_edge ⟨[("a", ⟨"", ∅, ∅⟩)], []⟩ (⟨"a", "a", "r", true⟩ : EdgeData)
      = some ⟨[("a", ⟨"", ∅, {"a"}⟩)], [("a_to_a", ⟨"a_to_a", "a", "a", "r", true⟩)]⟩ ∧
    get_node ⟨[("a", ⟨"", ∅, {"a"}⟩)], [("a_to_a", ⟨"a_to_a", "a", "a", "r", true⟩)]⟩ "a"
      = some ⟨"", ∅, {"a"}⟩ ∧
    "a" ∉ ((∅ : Finset String)) := by decide

/-! ## Claim C2 -/

/-- C2 (confirmed, self-loops included).  For every pair of existing
nodes, a successful `add_edge` with `directed = false` leaves each node
in both the `edges_to` and `edges_from` set of the other (the four
adjacency insertions of lines 248-272), and both `get_edge(source, target)`
and `get_edge(target, source)` succeed, each returning a `directed = false`
record (the two edge documents of lines 258-262 and 277-281). -/
theorem C2_add_edge_undirected (st : KGState) (e : EdgeData) (sd td : NodeData)
    (hd : e.directed = false)
    (hs : get_node st e.source_uid = some sd)
    (ht : get_node st e.target_uid = some td) :
    ∃ st', add_edge st e = some st' ∧
      (∃ sd', get_node st' e.source_uid = some sd' ∧
        e.target_uid ∈ sd'.edges_to ∧ e.target_uid ∈ sd'.edges_from) ∧
      (∃ td', get_node st' e.target_uid = some td' ∧
        e.source_uid ∈ td'.edges_to ∧ e.source_uid ∈ td'.edges_from) ∧
      (∃ ed, get_edge st' e.source_uid e.target_uid = some ed ∧ ed.directed = false) ∧
      (∃ ed, get_edge st' e.target_uid e.source_uid = some ed ∧ ed.directed = false) := by
  simp only [add_edge, hs, ht, hd, Bool.false_eq_true, if_false]
  refine ⟨_, rfl, ?_, ?_, ?_, ?_⟩
  · refine ⟨⟨sd.description, insert e.target_uid sd.edges_to,
      insert e.target_uid sd.edges_from⟩, ?_, Finset.mem_insert_self _ _,
      Finset.mem_insert_self _ _⟩
    simp [get_node, update_egde_coll]
  · by_cases hst : e.target_uid = e.source_uid
    · refine ⟨⟨sd.description, insert e.target_uid sd.edges_to,
        insert e.target_uid sd.edges_from⟩, ?_, ?_, ?_⟩ <;> rw [hst]
      · simp [get_node, update_egde_coll]
      · exact Finset.mem_insert_self _ _
      · exact Finset.mem_insert_self _ _
    · refine ⟨⟨td.description, insert e.source_uid td.edges_to,
        insert e.source_uid td.edges_from⟩, ?_, Finset.mem_insert_self _ _,
        Finset.mem_insert_self _ _⟩
      simp [get_node, update_egde_coll, hst]
  · by_cases hfr : generate_edge_uid e.source_uid e.target_uid =
      generate_edge_uid e.target_uid e.source_uid
    · refine ⟨⟨generate_edge_uid e.target_uid e.source_uid, e.target_uid,
        e.source_uid, e.description, false⟩, ?_, rfl⟩
      simp [get_edge, update_egde_coll, hfr]
    · refine ⟨⟨generate_edge_uid e.source_uid e.target_uid, e.source_uid,
        e.target_uid, e.description, false⟩, ?_, rfl⟩
      simp [get_edge, update_egde_coll, hfr]
  · refine ⟨⟨generate_edge_uid e.target_uid e.source_uid, e.target_uid,
      e.source_uid, e.description, false⟩, ?_, rfl⟩
    simp [get_edge, update_egde_coll]

/-- Witness for C2 at nodes `a`, `b` with no prior edges. -/
theorem C2_add_edge_undirected_witness :
    ((⟨"a", "b", "r", false⟩ : EdgeData).directed = false ∧
      get_node ⟨[("a", ⟨"", ∅, ∅⟩), ("b", ⟨"", ∅, ∅⟩)], []⟩ "a" = some ⟨"", ∅, ∅⟩ ∧
      get_node ⟨[("a", ⟨"", ∅, ∅⟩), ("b", ⟨"", ∅, ∅⟩)], []⟩ "b" = some ⟨"", ∅, ∅⟩) ∧
    (∃ st', add_edge ⟨[("a", ⟨"", ∅, ∅⟩), ("b", ⟨"", ∅, ∅⟩)], []⟩
        (⟨"a", "b", "r", false⟩ : EdgeData) = some st' ∧
      (∃ sd', get_node st' "a" = some sd' ∧ "b" ∈ sd'.edges_to ∧ "b" ∈ sd'.edges_from) ∧
      (∃ td', get_node st' "b" = some td' ∧ "a" ∈ td'.edges_to ∧ "a" ∈ td'.edges_from) ∧
      (∃ ed, get_edge st' "a" "b" = some ed ∧ ed.directed = false) ∧
      (∃ ed, get_edge st' "b" "a" = some ed ∧ ed.directed = false)) :=
  ⟨⟨rfl, by decide, by decide⟩,
    C2_add_edge_undirected ⟨[("a", ⟨"", ∅, ∅⟩), ("b", ⟨"", ∅, ∅⟩)], []⟩
      ⟨"a", "b", "r", false⟩ ⟨"", ∅, ∅⟩ ⟨"", ∅, ∅⟩ rfl (by decide) (by decide)⟩

/-! ## Claim C5 -/

/-- C5 (confirmed).  `remove_node` never touches the edge collection
(the source's own TODO at line 180): for every successful call the edge
collection of the resulting state is exactly the input's, so records
whose `source_uid` or `target_uid` equals the removed uid survive as
orphans. -/
theorem C5_remove_node_frame (st : KGState) (node_uid : String) (st' : KGState)
    (h : remove_node st node_uid = some st') : st'.edges = st.edges := by
  unfold remove_node at h
  cases hg : getDoc st.nodes node_uid with
  | none => rw [hg] at h; exact absurd h (by simp)
  | some nd =>
      rw [hg] at h
      simp only [Option.some.injEq] at h
      rw [← h]

/-- Witness for C5: removing node `a`, which the edge document
`a_to_b` references as source, leaves that document in place. -/
theorem C5_remove_node_frame_witness :
    remove_node
        ⟨[("a", ⟨"", {"b"}, {"b"}⟩), ("b", ⟨"", {"a"}, {"a"}⟩)],
          [("a_to_b", ⟨"a_to_b", "a", "b", "d", true⟩)]⟩ "a"
      = some ⟨[("b", ⟨"", ∅, ∅⟩)], [("a_to_b", ⟨"a_to_b", "a", "b", "d", true⟩)]⟩ ∧
    (⟨[("b", ⟨"", ∅, ∅⟩)], [("a_to_b", ⟨"a_to_b", "a", "b", "d", true⟩)]⟩ : KGState).edges
      = (⟨[("a", ⟨"", {"b"}, {"b"}⟩), ("b", ⟨"", {"a"}, {"a"}⟩)],
          [("a_to_b", ⟨"a_to_b", "a", "b", "d", true⟩)]⟩ : KGState).edges :=
  ⟨by decide,
    C5_remove_node_frame
      ⟨[("a", ⟨"", {"b"}, {"b"}⟩), ("b", ⟨"", {"a"}, {"a"}⟩)],
        [("a_to_b", ⟨"a_to_b", "a", "b", "d", true⟩)]⟩ "a"
      ⟨[("b", ⟨"", ∅, ∅⟩)], [("a_to_b", ⟨"a_to_b", "a", "b", "d", true⟩)]⟩
      (by decide)⟩

/-! ## Claim C9 -/

/-- Counterexample to C9 as stated: `add_node` performs no delimiter
validation (lines 81-109 check only prior existence and empty adjacency),
so a node whose uid contains the reserved sequence `_to_` is accepted and
written rather than rejected. -/
theorem C9_counterexample_delimiter_accepted :
    containsSeq sepChars "a_to_b".data = true ∧
    add_node ⟨[], []⟩ "a_to_b" ⟨"", ∅, ∅⟩
      = some ⟨[("a_to_b", ⟨"", ∅, ∅⟩)], []⟩ := by decide

/-- C9 (amended).  The documented uid constraint is not enforced by the
code: for every store and every node document with empty adjacency whose
uid is not yet present, `add_node` succeeds and writes the record keyed
by that uid even when the uid contains the reserved `_to_` delimiter;
no `InvalidArgument` failure occurs. -/
theorem C9_add_node_no_delimiter_check (st : KGState) (node_uid : String)
    (nd : NodeData)
    (hdelim : containsSeq sepChars node_uid.data = true)
    (habs : getDoc st.nodes node_uid = none)
    (hto : nd.edges_to = ∅) (hfrom : nd.edges_from = ∅) :
    add_node st node_uid nd = some { st with nodes := setDoc st.nodes node_uid nd } := by
  unfold add_node
  rw [habs, hto, hfrom]
  simp

/-- Witness for C9 at the uid `a_to_b` on the empty store. -/
theorem C9_add_node_no_delimiter_check_witness :
    (containsSeq sepChars "a_to_b".data = true ∧
      getDoc (⟨[], []⟩ : KGState).nodes "a_to_b" = none ∧
      (⟨"", ∅, ∅⟩ : NodeData).edges_to = ∅ ∧
      (⟨"", ∅, ∅⟩ : NodeData).edges_from = ∅) ∧
    add_node ⟨[], []⟩ "a_to_b" ⟨"", ∅, ∅⟩
      = some { nodes := setDoc (⟨[], []⟩ : KGState).nodes "a_to_b" ⟨"", ∅, ∅⟩,
               edges := ([] : List (String × EdgeDoc)) } :=
  ⟨⟨by decide, by decide, rfl, rfl⟩,
    C9_add_node_no_delimiter_check ⟨[], []⟩ "a_to_b" ⟨"", ∅, ∅⟩
      (by decide) (by decide) rfl rfl⟩

/-! ## Claim C6 -/

/-- C6 (confirmed).  Re-invoking `add_edge` with identical edge data on
the state a successful call produced is a no-op: every adjacency
insertion is a set union (`list(set(...) | \x7b...\x7d)`, idempotent) and the
edge-document upsert of `_update_egde_coll` rewrites the same content,
so the second call returns exactly the same store state. -/
theorem C6_add_edge_idempotent (st st' : KGState) (e : EdgeData)
    (h : add_edge st e = some st') : add_edge st' e = some st' := by
  obtain ⟨s, t, dsc, dir⟩ := e
  cases hs : get_node st s with
  | none => rw [add_edge.eq_def, hs] at h; exact absurd h (by simp)
  | some sd =>
  cases ht : get_node st t with
  | none => rw [add_edge.eq_def, hs, ht] at h; exact absurd h (by simp)
  | some td =>
  simp only [add_edge, hs, ht] at h
  by_cases hd : dir = true
  · subst hd
    rw [if_pos rfl] at h
    obtain rfl := Option.some.inj h
    by_cases hst : s = t
    · subst hst
      have hsd : sd = td := by rw [hs] at ht; exact Option.some.inj ht
      subst hsd
      simp [add_edge, get_node, update_egde_coll, setDoc_setDoc,
        setDoc_getDoc_eq, Finset.insert_idem]
    · simp [add_edge, get_node, update_egde_coll, setDoc_setDoc,
        setDoc_getDoc_eq, Finset.insert_idem, hst]
  · replace hd : dir = false := by
      cases dir
      · rfl
      · exact absurd rfl hd
    subst hd
    rw [if_neg (by simp)] at h
    by_cases hst : s = t
    · subst hst
      have hsd : sd = td := by rw [hs] at ht; exact Option.some.inj ht
      subst hsd
      obtain rfl := Option.some.inj h
      simp [add_edge, get_node, update_egde_coll, setDoc_setDoc,
        setDoc_getDoc_eq, Finset.insert_idem]
    · have hX : st' = _ := (Option.some.inj h).symm
      have hget_s : get_node st' s
          = some ⟨sd.description, insert t sd.edges_to, insert t sd.edges_from⟩ := by
        rw [hX]
        simp [get_node, update_egde_coll, hst, Ne.symm hst]
      have hget_t : get_node st' t
          = some ⟨td.description, insert s td.edges_to, insert s td.edges_from⟩ := by
        rw [hX]
        simp [get_node, update_egde_coll, hst, Ne.symm hst]
      rw [add_edge.eq_def, hget_s, hget_t]
      simp only [Bool.false_eq_true, if_false]
      by_cases hfr : generate_edge_uid s t = generate_edge_uid t s
      · subst hX
        simp [update_egde_coll, setDoc_setDoc, setDoc_getDoc_eq,
          Finset.insert_idem, hst, Ne.symm hst, hfr, KGState.mk.injEq]
      · subst hX
        simp [update_egde_coll, setDoc_setDoc, setDoc_getDoc_eq,
          Finset.insert_idem, hst, Ne.symm hst, hfr, KGState.mk.injEq]

/-- Witness for C6: one directed edge between `a` and `b`. -/
theorem C6_add_edge_idempotent_witness :
    add_edge ⟨[("a", ⟨"", ∅, ∅⟩), ("b", ⟨"", ∅, ∅⟩)], []⟩
        (⟨"a", "b", "r", true⟩ : EdgeData)
      = some ⟨[("a", ⟨"", {"b"}, ∅⟩), ("b", ⟨"", ∅, {"a"}⟩)],
          [("a_to_b", ⟨"a_to_b", "a", "b", "r", true⟩)]⟩ ∧
    add_edge ⟨[("a", ⟨"", {"b"}, ∅⟩), ("b", ⟨"", ∅, {"a"}⟩)],
        [("a_to_b", ⟨"a_to_b", "a", "b", "r", true⟩)]⟩
        (⟨"a", "b", "r", true⟩ : EdgeData)
      = some ⟨[("a", ⟨"", {"b"}, ∅⟩), ("b", ⟨"", ∅, {"a"}⟩)],
          [("a_to_b", ⟨"a_to_b", "a", "b", "r", true⟩)]⟩ :=
  ⟨by decide,
    C6_add_edge_idempotent ⟨[("a", ⟨"", ∅, ∅⟩), ("b", ⟨"", ∅, ∅⟩)], []⟩
      ⟨[("a", ⟨"", {"b"}, ∅⟩), ("b", ⟨"", ∅, {"a"}⟩)],
        [("a_to_b", ⟨"a_to_b", "a", "b", "r", true⟩)]⟩
      ⟨"a", "b", "r", true⟩ (by decide)⟩

/-! ## Claim C3 -/

/-- Counterexample to C3 as stated ("for every starting store state"):
when the edge `a -> b` is already reflected in the adjacency sets before
`add_edge`, the add is a set-union no-op but `remove_edge` erases the
entries, so the adjacency sets do NOT return to their pre-add state
(`a.edges_to` was `\x7b"b"\x7d`, afterwards it is empty). -/
theorem C3_counterexample_already_connected :
    ((add_edge ⟨[("a", ⟨"", {"b"}, ∅⟩), ("b", ⟨"", ∅, {"a"}⟩)], []⟩
        (⟨"a", "b", "r", true⟩ : EdgeData)).bind
      (fun s1 => remove_edge s1 "a" "b"))
      = some ⟨[("a", ⟨"", ∅, ∅⟩), ("b", ⟨"", ∅, ∅⟩)], []⟩ ∧
    get_node ⟨[("a", ⟨"", {"b"}, ∅⟩), ("b", ⟨"", ∅, {"a"}⟩)], []⟩ "a"
      = some ⟨"", {"b"}, ∅⟩ ∧
    get_node ⟨[("a", ⟨"", ∅, ∅⟩), ("b", ⟨"", ∅, ∅⟩)], []⟩ "a"
      = some ⟨"", ∅, ∅⟩ ∧
    (⟨"", ∅, ∅⟩ : NodeData) ≠ ⟨"", {"b"}, ∅⟩ := by decide

/-- C3 (amended: the endpoints are distinct and the edge's adjacency
entries are absent before the add — the "not already connected" reading).
Then `remove_edge` immediately after a successful `add_edge` restores
both endpoint documents exactly and deletes the edge record(s) the add
created: the forward record, and also the reverse record when
`directed = false`. -/
theorem C3_remove_edge_roundtrip (st : KGState) (e : EdgeData) (sd td : NodeData) (st1 : KGState)
    (hne : e.source_uid ≠ e.target_uid)
    (hs : get_node st e.source_uid = some sd)
    (ht : get_node st e.target_uid = some td)
    (h1 : e.target_uid ∉ sd.edges_to)
    (h2 : e.source_uid ∉ td.edges_from)
    (h3 : e.directed = false → e.source_uid ∉ td.edges_to ∧ e.target_uid ∉ sd.edges_from)
    (hadd : add_edge st e = some st1) :
    ∃ st2, remove_edge st1 e.source_uid e.target_uid = some st2 ∧
      get_node st2 e.source_uid = some sd ∧
      get_node st2 e.target_uid = some td ∧
      get_edge st2 e.source_uid e.target_uid = none ∧
      (e.directed = false → get_edge st2 e.target_uid e.source_uid = none) := by
  obtain ⟨s, t, dsc, dir⟩ := e
  simp only at hne hs ht h1 h2 h3 ⊢
  simp only [add_edge, hs, ht] at hadd
  by_cases hd : dir = true
  · subst hd
    rw [if_pos rfl] at hadd
    have hX : st1 = _ := (Option.some.inj hadd).symm
    have hga : get_edge st1 s t = some ⟨generate_edge_uid s t, s, t, dsc, true⟩ := by
      rw [hX]
      simp [get_edge, update_egde_coll]
    have hgs : get_node st1 s
        = some ⟨sd.description, insert t sd.edges_to, sd.edges_from⟩ := by
      rw [hX]
      simp [get_node, update_egde_coll, hne]
    have hgt : get_node st1 t
        = some ⟨td.description, td.edges_to, insert s td.edges_from⟩ := by
      rw [hX]
      simp [get_node, update_egde_coll]
    rw [remove_edge.eq_def, hga, hgs, hgt]
    simp only [Finset.mem_insert_self, if_pos, if_true,
      Finset.erase_insert h1, Finset.erase_insert h2]
    refine ⟨_, rfl, ?_, ?_, ?_, by simp⟩
    · simp [get_node, hne]
    · simp [get_node]
    · simp [get_edge]
  · replace hd : dir = false := by
      cases dir
      · rfl
      · exact absurd rfl hd
    subst hd
    rw [if_neg (by simp)] at hadd
    have hX : st1 = _ := (Option.some.inj hadd).symm
    obtain ⟨h3a, h3b⟩ := h3 rfl
    have hga : ∃ ed, get_edge st1 s t = some ed ∧ ed.directed = false := by
      rw [hX]
      by_cases hfr : generate_edge_uid s t = generate_edge_uid t s
      · exact ⟨⟨generate_edge_uid t s, t, s, dsc, false⟩,
          by simp [get_edge, update_egde_coll, hfr], rfl⟩
      · exact ⟨⟨generate_edge_uid s t, s, t, dsc, false⟩,
          by simp [get_edge, update_egde_coll, hfr], rfl⟩
    obtain ⟨ed, hga, hdir⟩ := hga
    have hgs : get_node st1 s
        = some ⟨sd.description, insert t sd.edges_to, insert t sd.edges_from⟩ := by
      rw [hX]
      simp [get_node, update_egde_coll, hne, Ne.symm hne]
    have hgt : get_node st1 t
        = some ⟨td.description, insert s td.edges_to, insert s td.edges_from⟩ := by
      rw [hX]
      simp [get_node, update_egde_coll, hne, Ne.symm hne]
    rw [remove_edge.eq_def, hga, hgs, hgt]
    simp only [Finset.mem_insert_self, if_pos, if_true, hdir,
      Bool.false_eq_true, if_false,
      Finset.erase_insert h1, Finset.erase_insert h2,
      Finset.erase_insert h3a, Finset.erase_insert h3b]
    refine ⟨_, rfl, ?_, ?_, ?_, fun _ => ?_⟩
    · simp [get_node, hne, Ne.symm hne]
    · simp [get_node]
    · by_cases hfr : generate_edge_uid s t = generate_edge_uid t s
      · simp [get_edge, hfr]
      · simp [get_edge, hfr]
    · simp [get_edge]

/-- Witness for C3: an undirected edge between fresh nodes `a` and `b`. -/
theorem C3_remove_edge_roundtrip_witness :
    (("a" : String) ≠ "b" ∧
      get_node ⟨[("a", ⟨"", ∅, ∅⟩), ("b", ⟨"", ∅, ∅⟩)], []⟩ "a" = some ⟨"", ∅, ∅⟩ ∧
      get_node ⟨[("a", ⟨"", ∅, ∅⟩), ("b", ⟨"", ∅, ∅⟩)], []⟩ "b" = some ⟨"", ∅, ∅⟩ ∧
      "b" ∉ ((∅ : Finset String)) ∧ "a" ∉ ((∅ : Finset String)) ∧
      add_edge ⟨[("a", ⟨"", ∅, ∅⟩), ("b", ⟨"", ∅, ∅⟩)], []⟩
          (⟨"a", "b", "r", false⟩ : EdgeData)
        = some ⟨[("a", ⟨"", {"b"}, {"b"}⟩), ("b", ⟨"", {"a"}, {"a"}⟩)],
            [("a_to_b", ⟨"a_to_b", "a", "b", "r", false⟩),
             ("b_to_a", ⟨"b_to_a", "b", "a", "r", false⟩)]⟩) ∧
    (∃ st2, remove_edge ⟨[("a", ⟨"", {"b"}, {"b"}⟩), ("b", ⟨"", {"a"}, {"a"}⟩)],
          [("a_to_b", ⟨"a_to_b", "a", "b", "r", false⟩),
           ("b_to_a", ⟨"b_to_a", "b", "a", "r", false⟩)]⟩ "a" "b" = some st2 ∧
      get_node st2 "a" = some ⟨"", ∅, ∅⟩ ∧
      get_node st2 "b" = some ⟨"", ∅, ∅⟩ ∧
      get_edge st2 "a" "b" = none ∧
      ((false : Bool) = false → get_edge st2 "b" "a" = none)) :=
  ⟨⟨by decide, by decide, by decide, by decide, by decide, by decide⟩,
    C3_remove_edge_roundtrip ⟨[("a", ⟨"", ∅, ∅⟩), ("b", ⟨"", ∅, ∅⟩)], []⟩
      ⟨"a", "b", "r", false⟩ ⟨"", ∅, ∅⟩ ⟨"", ∅, ∅⟩
      ⟨[("a", ⟨"", {"b"}, {"b"}⟩), ("b", ⟨"", {"a"}, {"a"}⟩)],
        [("a_to_b", ⟨"a_to_b", "a", "b", "r", false⟩),
         ("b_to_a", ⟨"b_to_a", "b", "a", "r", false⟩)]⟩
      (by decide) (by decide) (by decide) (by decide) (by decide)
      (fun _ => ⟨by decide, by decide⟩) (by decide)⟩

/-! ## Claim C4 -/

/-- C4 (confirmed).  For an existing node whose adjacency is consistent
with its neighbors' (every surviving document that points at `node_uid`
is listed in the snapshot's `edges_from`/`edges_to` — the invariant the
engine maintains), `remove_node` completes, deletes the node's own
record, and leaves no surviving document whose `edges_to` or
`edges_from` contains `node_uid`.  The pass order (first `edges_from`
neighbors' `edges_to`, then `edges_to` neighbors' `edges_from`) and the
silent skip of missing neighbors are those of the definition of
`remove_node`; the witness below exercises the skip with a listed
neighbor that has no document. -/
theorem C4_remove_node_cascade (st : KGState) (node_uid : String) (nd : NodeData)
    (hget : getDoc st.nodes node_uid = some nd)
    (hcons : ∀ p ∈ st.nodes,
      (node_uid ∈ p.2.edges_to → p.1 ∈ nd.edges_from) ∧
      (node_uid ∈ p.2.edges_from → p.1 ∈ nd.edges_to)) :
    ∃ st', remove_node st node_uid = some st' ∧
      getDoc st'.nodes node_uid = none ∧
      ∀ p ∈ st'.nodes, node_uid ∉ p.2.edges_to ∧ node_uid ∉ p.2.edges_from := by
  have hstep : remove_node st node_uid = some
      { st with nodes := (delDoc ((st.nodes.map (fun p =>
          if p.1 ∈ nd.edges_from then
            (p.1, { p.2 with edges_to := p.2.edges_to.erase node_uid })
          else p)).map (fun p =>
          if p.1 ∈ nd.edges_to then
            (p.1, { p.2 with edges_from := p.2.edges_from.erase node_uid })
          else p)) node_uid) } := by
    rw [remove_node.eq_def, hget]
  refine ⟨_, hstep, by simp, ?_⟩
  intro p hp
  rw [mem_delDoc] at hp
  obtain ⟨hp2, hpne⟩ := hp
  obtain ⟨r, hr1, hr2⟩ := List.mem_map.mp hp2
  obtain ⟨q, hq1, hq2⟩ := List.mem_map.mp hr1
  obtain ⟨hto, hfrom⟩ := hcons q hq1
  subst hr2
  subst hq2
  constructor
  · by_cases h1 : q.1 ∈ nd.edges_from
    · by_cases h2 : q.1 ∈ nd.edges_to <;>
        simp [h1, h2, Finset.not_mem_erase]
    · by_cases h2 : q.1 ∈ nd.edges_to <;>
        simp [h1, h2, Finset.not_mem_erase] <;>
        exact fun hmem => h1 (hto hmem)
  · by_cases h1 : q.1 ∈ nd.edges_from
    · by_cases h2 : q.1 ∈ nd.edges_to <;>
        simp [h1, h2, Finset.not_mem_erase] <;>
        exact fun hmem => h2 (hfrom hmem)
    · by_cases h2 : q.1 ∈ nd.edges_to <;>
        simp [h1, h2, Finset.not_mem_erase] <;>
        exact fun hmem => h2 (hfrom hmem)

/-- Witness for C4: removing `a`, whose `edges_from` lists the
non-existent neighbor `ghost` (silently skipped). -/
theorem C4_remove_node_cascade_witness :
    (getDoc (⟨[("a", ⟨"", {"b"}, insert "b" {"ghost"}⟩),
        ("b", ⟨"", {"a"}, {"a"}⟩), ("c", ⟨"", ∅, ∅⟩)], []⟩ : KGState).nodes "a"
      = some ⟨"", {"b"}, insert "b" {"ghost"}⟩ ∧
      (∀ p ∈ (⟨[("a", ⟨"", {"b"}, insert "b" {"ghost"}⟩),
          ("b", ⟨"", {"a"}, {"a"}⟩), ("c", ⟨"", ∅, ∅⟩)], []⟩ : KGState).nodes,
        ("a" ∈ p.2.edges_to → p.1 ∈ (insert "b" {"ghost"} : Finset String)) ∧
        ("a" ∈ p.2.edges_from → p.1 ∈ ({"b"} : Finset String)))) ∧
    (∃ st', remove_node ⟨[("a", ⟨"", {"b"}, insert "b" {"ghost"}⟩),
        ("b", ⟨"", {"a"}, {"a"}⟩), ("c", ⟨"", ∅, ∅⟩)], []⟩ "a" = some st' ∧
      getDoc st'.nodes "a" = none ∧
      ∀ p ∈ st'.nodes, "a" ∉ p.2.edges_to ∧ "a" ∉ p.2.edges_from) :=
  ⟨⟨by decide, by decide⟩,
    C4_remove_node_cascade ⟨[("a", ⟨"", {"b"}, insert "b" {"ghost"}⟩),
        ("b", ⟨"", {"a"}, {"a"}⟩), ("c", ⟨"", ∅, ∅⟩)], []⟩ "a"
      ⟨"", {"b"}, insert "b" {"ghost"}⟩ (by decide) (by decide)⟩

/-! ## Claim C7 -/

theorem delDoc_eq_filter {α : Type} (l : List (String × α)) (k : String) :
    delDoc l k = l.filter (fun p => decide (p.1 ≠ k)) := by
  induction l with
  | nil => simp [delDoc]
  | cons p rest ih =>
      obtain ⟨k', v⟩ := p
      by_cases h : k' = k <;> simp [delDoc, h, ih, List.filter]

theorem getDoc_of_mem_nodup {α : Type} (l : List (String × α)) (k : String) (v : α)
    (hnd : (l.map Prod.fst).Nodup) (hmem : (k, v) ∈ l) : getDoc l k = some v := by
  induction l with
  | nil => simp at hmem
  | cons p rest ih =>
      obtain ⟨k', w⟩ := p
      rw [List.map_cons, List.nodup_cons] at hnd
      rcases List.mem_cons.mp hmem with h | h
      · injection h with hk hv
        subst hk
        simp [getDoc, hv]
      · by_cases hk : k' = k
        · have hmm : k ∈ rest.map Prod.fst := List.mem_map_of_mem Prod.fst h
          rw [← hk] at hmm
          exact absurd hmm hnd.1
        · simp [getDoc, hk, ih hnd.2 h]

theorem keys_nodup_inj {α : Type} (l : List (String × α))
    (hnd : (l.map Prod.fst).Nodup) (p q : String × α)
    (hp : p ∈ l) (hq : q ∈ l) (hk : p.1 = q.1) : p = q := by
  induction l with
  | nil => simp at hp
  | cons r rest ih =>
      rw [List.map_cons, List.nodup_cons] at hnd
      rcases List.mem_cons.mp hp with h1 | h1 <;>
        rcases List.mem_cons.mp hq with h2 | h2
      · rw [h1, h2]
      · have hmm : q.1 ∈ rest.map Prod.fst := List.mem_map_of_mem Prod.fst h2
        rw [← hk, h1] at hmm
        exact absurd hmm hnd.1
      · have hmm : p.1 ∈ rest.map Prod.fst := List.mem_map_of_mem Prod.fst h1
        rw [hk, h2] at hmm
        exact absurd hmm hnd.1
      · exact ih hnd.2 h1 h2

theorem zeroDegree_empty (nd : NodeData) (hz : zeroDegree nd = true) :
    nd.edges_to = ∅ ∧ nd.edges_from = ∅ := by
  unfold zeroDegree at hz
  rw [Nat.beq_eq_true_eq, Nat.add_eq_zero] at hz
  exact ⟨Finset.card_eq_zero.mp hz.1, Finset.card_eq_zero.mp hz.2⟩

theorem remove_node_zerodegree (st : KGState) (uid : String) (nd : NodeData)
    (h : getDoc st.nodes uid = some nd) (hz : zeroDegree nd = true) :
    remove_node st uid = some { st with nodes := delDoc st.nodes uid } := by
  obtain ⟨h1, h2⟩ := zeroDegree_empty nd hz
  rw [remove_node.eq_def, h]
  simp [h1, h2]

theorem foldlM_remove_zero (L : List String) (st : KGState)
    (hmem : ∀ u ∈ L, ∃ nd, getDoc st.nodes u = some nd ∧ zeroDegree nd = true)
    (hnd : L.Nodup) :
    ∃ st', L.foldlM remove_node st = some st' ∧
      st'.nodes = st.nodes.filter (fun p => decide (p.1 ∉ L)) ∧
      st'.edges = st.edges := by
  induction L generalizing st with
  | nil =>
      refine ⟨st, rfl, ?_, rfl⟩
      simp
  | cons u L' ih =>
      obtain ⟨nd, hu, hz⟩ := hmem u (List.mem_cons_self u L')
      rw [List.nodup_cons] at hnd
      rw [List.foldlM_cons, remove_node_zerodegree st u nd hu hz]
      obtain ⟨st', hfold, hnodes, hedges⟩ :=
        ih { st with nodes := delDoc st.nodes u }
          (by
            intro v hv
            obtain ⟨nd', hv1, hv2⟩ := hmem v (List.mem_cons_of_mem u hv)
            refine ⟨nd', ?_, hv2⟩
            have hvu : v ≠ u := fun hh => hnd.1 (hh ▸ hv)
            simpa [getDoc_delDoc_ne _ _ _ hvu] using hv1)
          hnd.2
      refine ⟨st', hfold, ?_, hedges⟩
      rw [hnodes]
      simp only [delDoc_eq_filter, List.filter_filter]
      apply List.filter_congr
      intro p hp
      simp only [List.mem_cons, decide_not, Bool.and_comm]
      by_cases hpu : p.1 = u <;> by_cases hpl : p.1 ∈ L' <;>
        simp [hpu, hpl]


/-- C7 (confirmed).  On a store whose node documents are uniquely keyed,
`clean_zerodegree_nodes` succeeds and the surviving node collection is
exactly the original minus the documents whose `edges_to` and
`edges_from` were both empty at scan time; every other node document is
kept verbatim (and the edge collection is untouched). -/
theorem C7_clean_zerodegree_exact (st : KGState)
    (hnd : (st.nodes.map Prod.fst).Nodup) :
    ∃ st', clean_zerodegree_nodes st = some st' ∧
      st'.nodes = st.nodes.filter (fun p => !(zeroDegree p.2)) ∧
      st'.edges = st.edges := by
  have hclean : clean_zerodegree_nodes st
      = ((st.nodes.filter (fun p => zeroDegree p.2)).map Prod.fst).foldlM
          remove_node st := rfl
  rw [hclean]
  obtain ⟨st', h1, h2, h3⟩ := foldlM_remove_zero
    ((st.nodes.filter (fun p => zeroDegree p.2)).map Prod.fst) st
    (by
      intro u hu
      obtain ⟨q, hq1, hq2⟩ := List.mem_map.mp hu
      have hqs : q ∈ st.nodes := List.mem_of_mem_filter hq1
      have hqz : zeroDegree q.2 = true := (List.mem_filter.mp hq1).2
      exact ⟨q.2, hq2 ▸ getDoc_of_mem_nodup st.nodes q.1 q.2 hnd hqs, hqz⟩)
    (hnd.sublist ((st.nodes.filter_sublist).map Prod.fst))
  refine ⟨st', h1, ?_, h3⟩
  rw [h2]
  apply List.filter_congr
  intro p hp
  by_cases hz : zeroDegree p.2
  · have hpl : p.1 ∈ (st.nodes.filter (fun p => zeroDegree p.2)).map Prod.fst :=
      List.mem_map_of_mem Prod.fst (List.mem_filter.mpr ⟨hp, hz⟩)
    simp [hpl, hz]
  · have hpl : p.1 ∉ (st.nodes.filter (fun p => zeroDegree p.2)).map Prod.fst := by
      intro hmem
      obtain ⟨q, hq1, hq2⟩ := List.mem_map.mp hmem
      have hqq : q = p := keys_nodup_inj st.nodes hnd q p
        (List.mem_of_mem_filter hq1) hp hq2
      exact hz (hqq ▸ (List.mem_filter.mp hq1).2)
    simp [hpl, hz]

/-- Witness for C7: `c` has degree zero and is removed; `a` and `b` keep
their records; the edge collection survives. -/
theorem C7_clean_zerodegree_exact_witness :
    ((((⟨[("a", ⟨"", {"b"}, {"b"}⟩), ("b", ⟨"", {"a"}, {"a"}⟩), ("c", ⟨"", ∅, ∅⟩)],
        [("x", ⟨"x", "a", "b", "d", true⟩)]⟩ : KGState)).nodes.map Prod.fst).Nodup) ∧
    (∃ st', clean_zerodegree_nodes
        ⟨[("a", ⟨"", {"b"}, {"b"}⟩), ("b", ⟨"", {"a"}, {"a"}⟩), ("c", ⟨"", ∅, ∅⟩)],
          [("x", ⟨"x", "a", "b", "d", true⟩)]⟩ = some st' ∧
      st'.nodes = (⟨[("a", ⟨"", {"b"}, {"b"}⟩), ("b", ⟨"", {"a"}, {"a"}⟩),
          ("c", ⟨"", ∅, ∅⟩)], [("x", ⟨"x", "a", "b", "d", true⟩)]⟩ : KGState).nodes.filter
        (fun p => !(zeroDegree p.2)) ∧
      st'.edges = (⟨[("a", ⟨"", {"b"}, {"b"}⟩), ("b", ⟨"", {"a"}, {"a"}⟩),
          ("c", ⟨"", ∅, ∅⟩)], [("x", ⟨"x", "a", "b", "d", true⟩)]⟩ : KGState).edges) :=
  ⟨by decide,
    C7_clean_zerodegree_exact
      ⟨[("a", ⟨"", {"b"}, {"b"}⟩), ("b", ⟨"", {"a"}, {"a"}⟩), ("c", ⟨"", ∅, ∅⟩)],
        [("x", ⟨"x", "a", "b", "d", true⟩)]⟩ (by decide)⟩

/-! ## Claim C8 -/

theorem isPrefixOf_decomp (p l : List Char) :
    p.isPrefixOf l = true ↔ ∃ v, l = p ++ v := by
  induction p generalizing l with
  | nil => simp [List.isPrefixOf]
  | cons c cs ih =>
      cases l with
      | nil => simp [List.isPrefixOf]
      | cons d ds =>
          simp only [List.isPrefixOf, Bool.and_eq_true, beq_iff_eq, ih,
            List.cons_append, List.cons.injEq]
          constructor
          · rintro ⟨h1, v, h2⟩
            exact ⟨v, h1.symm, h2⟩
          · rintro ⟨v, h1, h2⟩
            exact ⟨h1.symm, v, h2⟩

theorem isSuffixOf_append_self (p u : List Char) :
    p.isSuffixOf (u ++ p) = true := by
  unfold List.isSuffixOf
  rw [List.reverse_append, isPrefixOf_decomp]
  exact ⟨u.reverse, rfl⟩

theorem containsSeq_of_decomp (pat u v l : List Char)
    (h : l = u ++ pat ++ v) : containsSeq pat l = true := by
  induction u generalizing l with
  | nil =>
      subst h
      unfold containsSeq
      rw [Bool.or_eq_true, isPrefixOf_decomp]
      exact Or.inl ⟨v, by simp⟩
  | cons c cs ih =>
      subst h
      unfold containsSeq
      rw [Bool.or_eq_true]
      exact Or.inr (by simpa using ih (cs ++ pat ++ v) (by simp))

theorem sep_split_eq (a b a' b' : List Char)
    (ha' : containsSeq sepChars a' = false)
    (hsa' : sepTail.isSuffixOf a' = false)
    (hlen : a.length ≤ a'.length)
    (h : a ++ (sepChars ++ b) = a' ++ (sepChars ++ b')) : a = a' := by
  rcases List.append_eq_append_iff.mp h with ⟨u, hu1, hu2⟩ | ⟨u, hu1, hu2⟩
  · rcases u with _ | ⟨c1, _ | ⟨c2, _ | ⟨c3, _ | ⟨c4, u'⟩⟩⟩⟩
    · rw [hu1, List.append_nil]
    · simp [sepChars] at hu2
    · simp [sepChars] at hu2
    · simp only [sepChars, List.cons_append, List.nil_append,
        List.cons.injEq] at hu2
      obtain ⟨hc1, hc2, hc3, -⟩ := hu2
      rw [← hc1, ← hc2, ← hc3] at hu1
      have hsuf : sepTail.isSuffixOf a' = true := by
        rw [hu1]
        exact isSuffixOf_append_self sepTail a
      rw [hsuf] at hsa'
      exact absurd hsa' (by simp)
    · simp only [sepChars, List.cons_append, List.nil_append,
        List.cons.injEq] at hu2
      obtain ⟨hc1, hc2, hc3, hc4, -⟩ := hu2
      rw [← hc1, ← hc2, ← hc3, ← hc4] at hu1
      have hcs : containsSeq sepChars a' = true :=
        containsSeq_of_decomp sepChars a u' a'
          (by rw [hu1]; simp [sepChars])
      rw [hcs] at ha'
      exact absurd ha' (by simp)
  · have hul : u.length = 0 := by
      have hle := congrArg List.length hu1
      rw [List.length_append] at hle
      omega
    rw [List.length_eq_zero] at hul
    rw [hu1, hul, List.append_nil]

/-- Counterexample to C8 as stated: the delimiter `_to_` overlaps
itself, so the stated precondition (no uid contains `_to_`) does not
make the scheme collision-free:
`id("x", "to_y") = "x_to_to_y" = id("x_to", "y")` although none of the
four uids contains `_to_` and `"x" ≠ "x_to"`. -/
theorem C8_counterexample_overlap_collision :
    generate_edge_uid "x" "to_y" = generate_edge_uid "x_to" "y" ∧
    containsSeq sepChars "x".data = false ∧
    containsSeq sepChars "to_y".data = false ∧
    containsSeq sepChars "x_to".data = false ∧
    containsSeq sepChars "y".data = false ∧
    ("x" : String) ≠ "x_to" := by decide

/-- C8 (amended).  `_generate_edge_uid` maps `(s, t)` to `s ++ "_to_" ++ t`
(definitional) and is injective — hence deterministic and
order-sensitive — under the *strengthened* precondition that no uid
contains `"_to_"` and additionally neither source uid ends with `"_to"`
(the self-overlap of the delimiter exhibited by the counterexample). -/
theorem C8_edge_uid_inj (s t s' t' : String)
    (hs : containsSeq sepChars s.data = false)
    (ht : containsSeq sepChars t.data = false)
    (hs' : containsSeq sepChars s'.data = false)
    (ht' : containsSeq sepChars t'.data = false)
    (hsuf : sepTail.isSuffixOf s.data = false)
    (hsuf' : sepTail.isSuffixOf s'.data = false)
    (h : generate_edge_uid s t = generate_edge_uid s' t') :
    s = s' ∧ t = t' := by
  have hd : s.data ++ (sepChars ++ t.data) = s'.data ++ (sepChars ++ t'.data) := by
    have hh := congrArg String.data h
    simpa [generate_edge_uid, String.data_append, sepChars] using hh
  have hae : s.data = s'.data := by
    rcases le_total s.data.length s'.data.length with hl | hl
    · exact sep_split_eq _ _ _ _ hs' hsuf' hl hd
    · exact (sep_split_eq _ _ _ _ hs hsuf hl hd.symm).symm
  have hte : t.data = t'.data := by
    rw [hae] at hd
    exact List.append_cancel_left (List.append_cancel_left hd)
  exact ⟨String.ext hae, String.ext hte⟩

/-- Witness for C8 at `("alice", "bob")` against `("alice", "bob")`. -/
theorem C8_edge_uid_inj_witness :
    (containsSeq sepChars "alice".data = false ∧
      containsSeq sepChars "bob".data = false ∧
      sepTail.isSuffixOf "alice".data = false ∧
      generate_edge_uid "alice" "bob" = generate_edge_uid "alice" "bob") ∧
    (("alice" : String) = "alice" ∧ ("bob" : String) = "bob") :=
  ⟨⟨by decide, by decide, by decide, rfl⟩,
    C8_edge_uid_inj "alice" "bob" "alice" "bob" (by decide) (by decide)
      (by decide) (by decide) (by decide) (by decide) rfl⟩

/-! ## Claim C10 -/

theorem nxAddNode_edges (g : NXGraph) (u : String) :
    (nxAddNode g u).edges = g.edges := by
  by_cases h : u ∈ g.nodes <;> simp [nxAddNode, h]

theorem nxAddNode_mem (g : NXGraph) (u w : String) (h : w ∈ g.nodes) :
    w ∈ (nxAddNode g u).nodes := by
  by_cases hu : u ∈ g.nodes <;> simp [nxAddNode, hu, h]

theorem nxAddNode_mem_self (g : NXGraph) (u : String) :
    u ∈ (nxAddNode g u).nodes := by
  by_cases hu : u ∈ g.nodes <;> simp [nxAddNode, hu]

theorem nxHasEdge_of_edges_eq (g g' : NXGraph) (h : g'.edges = g.edges)
    (u v : String) : nxHasEdge g' u v = nxHasEdge g u v := by
  simp [nxHasEdge, h]

theorem nxAddEdge_nodes_mem (g : NXGraph) (a b w : String) (h : w ∈ g.nodes) :
    w ∈ (nxAddEdge g a b).nodes := by
  unfold nxAddEdge
  by_cases hh : nxHasEdge (nxAddNode (nxAddNode g a) b) a b <;>
    simp only [hh, if_true, if_false, Bool.false_eq_true] <;>
    exact nxAddNode_mem _ _ _ (nxAddNode_mem _ _ _ h)

theorem nxAddEdge_hasEdge_self (g : NXGraph) (a b : String) :
    nxHasEdge (nxAddEdge g a b) a b = true := by
  unfold nxAddEdge
  by_cases hh : nxHasEdge (nxAddNode (nxAddNode g a) b) a b
  · rw [if_pos hh]
    exact hh
  · rw [if_neg hh]
    simp [nxHasEdge, List.any_append]

theorem nxAddEdge_hasEdge_mono (g : NXGraph) (a b u v : String)
    (h : nxHasEdge g u v = true) : nxHasEdge (nxAddEdge g a b) u v = true := by
  have hg1 : nxHasEdge (nxAddNode (nxAddNode g a) b) u v = true :=
    (nxHasEdge_of_edges_eq g (nxAddNode (nxAddNode g a) b)
      (by rw [nxAddNode_edges, nxAddNode_edges]) u v).trans h
  unfold nxAddEdge
  by_cases hh : nxHasEdge (nxAddNode (nxAddNode g a) b) a b
  · rw [if_pos hh]
    exact hg1
  · rw [if_neg hh]
    simp only [nxHasEdge, List.any_append, Bool.or_eq_true]
    exact Or.inl (by simpa [nxHasEdge] using hg1)

theorem nxAddEdge_mult_le (g : NXGraph) (a b : String)
    (h : ∀ u v, nxEdgeMultiplicity g u v ≤ 1) (u v : String) :
    nxEdgeMultiplicity (nxAddEdge g a b) u v ≤ 1 := by
  have hedges : (nxAddNode (nxAddNode g a) b).edges = g.edges := by
    rw [nxAddNode_edges, nxAddNode_edges]
  unfold nxAddEdge
  by_cases hh : nxHasEdge (nxAddNode (nxAddNode g a) b) a b
  · rw [if_pos hh]
    simpa [nxEdgeMultiplicity, hedges] using h u v
  · rw [if_neg hh]
    simp only [nxEdgeMultiplicity, hedges, List.countP_append]
    by_cases hab : ((a == u && b == v) || (a == v && b == u)) = true
    · have hzero : g.edges.countP
          (fun p => (p.1 == u && p.2 == v) || (p.1 == v && p.2 == u)) = 0 := by
        rw [List.countP_eq_zero]
        intro q hq
        intro hq2
        rw [nxHasEdge, hedges] at hh
        have : g.edges.any
            (fun p => (p.1 == a && p.2 == b) || (p.1 == b && p.2 == a)) = true := by
          rw [List.any_eq_true]
          refine ⟨q, hq, ?_⟩
          simp only [Bool.or_eq_true, Bool.and_eq_true, beq_iff_eq] at hq2 hab ⊢
          rcases hab with ⟨rfl, rfl⟩ | ⟨rfl, rfl⟩ <;> tauto
        exact hh this
      rw [hzero]
      simp [List.countP, List.countP.go, hab]
    · rw [Bool.not_eq_true] at hab
      have hone : List.countP
          (fun p => (p.1 == u && p.2 == v) || (p.1 == v && p.2 == u)) [(a, b)] = 0 := by
        simp [List.countP, List.countP.go, hab]
      rw [hone]
      simpa using h u v

theorem foldl_addNode_edges (l : List (String × NodeData)) (g : NXGraph) :
    (l.foldl (fun g p => nxAddNode g p.1) g).edges = g.edges := by
  induction l generalizing g with
  | nil => rfl
  | cons p rest ih => rw [List.foldl_cons, ih, nxAddNode_edges]

theorem foldl_addNode_mono (l : List (String × NodeData)) (g : NXGraph)
    (w : String) (h : w ∈ g.nodes) :
    w ∈ (l.foldl (fun g p => nxAddNode g p.1) g).nodes := by
  induction l generalizing g with
  | nil => exact h
  | cons q rest ih => exact ih (nxAddNode g q.1) (nxAddNode_mem _ _ _ h)

theorem foldl_addNode_mem (l : List (String × NodeData)) (g : NXGraph) :
    ∀ p ∈ l, p.1 ∈ (l.foldl (fun g p => nxAddNode g p.1) g).nodes := by
  induction l generalizing g with
  | nil => intro p hp; simp at hp
  | cons q rest ih =>
      intro p hp
      rcases List.mem_cons.mp hp with h | h
      · rw [List.foldl_cons, h]
        exact foldl_addNode_mono rest (nxAddNode g q.1) q.1 (nxAddNode_mem_self g q.1)
      · exact ih (nxAddNode g q.1) p h

theorem foldl_addEdge_nodes_mono (l : List (String × EdgeDoc)) (g : NXGraph)
    (w : String) (h : w ∈ g.nodes) :
    w ∈ (l.foldl (fun g p => nxAddEdge g p.2.source_uid p.2.target_uid) g).nodes := by
  induction l generalizing g with
  | nil => exact h
  | cons q rest ih => exact ih _ (nxAddEdge_nodes_mem _ _ _ _ h)

theorem foldl_addEdge_hasEdge_mono (l : List (String × EdgeDoc)) (g : NXGraph)
    (u v : String) (h : nxHasEdge g u v = true) :
    nxHasEdge (l.foldl (fun g p => nxAddEdge g p.2.source_uid p.2.target_uid) g) u v
      = true := by
  induction l generalizing g with
  | nil => exact h
  | cons q rest ih => exact ih _ (nxAddEdge_hasEdge_mono _ _ _ _ _ h)

theorem foldl_addEdge_hasEdge (l : List (String × EdgeDoc)) (g : NXGraph) :
    ∀ p ∈ l, nxHasEdge
      (l.foldl (fun g p => nxAddEdge g p.2.source_uid p.2.target_uid) g)
      p.2.source_uid p.2.target_uid = true := by
  induction l generalizing g with
  | nil => intro p hp; simp at hp
  | cons q rest ih =>
      intro p hp
      rcases List.mem_cons.mp hp with h | h
      · rw [List.foldl_cons, h]
        exact foldl_addEdge_hasEdge_mono rest _ _ _ (nxAddEdge_hasEdge_self _ _ _)
      · exact ih _ p h

theorem foldl_addEdge_mult_le (l : List (String × EdgeDoc)) (g : NXGraph)
    (h : ∀ u v, nxEdgeMultiplicity g u v ≤ 1) (u v : String) :
    nxEdgeMultiplicity
      (l.foldl (fun g p => nxAddEdge g p.2.source_uid p.2.target_uid) g) u v ≤ 1 := by
  induction l generalizing g with
  | nil => exact h u v
  | cons q rest ih => exact ih _ (nxAddEdge_mult_le _ _ _ h)

/-- Counterexample to C10 as stated: for a store holding the
forward/reverse record pair of one undirected edge, the materialized
graph contains the edge with multiplicity exactly 1, not greater than 1:
`nx.Graph` is a *simple* graph, so the second `add_edge` call of the
streaming loop is structurally a no-op. -/
theorem C10_counterexample_multiplicity_one :
    get_edge ⟨[("a", ⟨"", {"b"}, {"b"}⟩), ("b", ⟨"", {"a"}, {"a"}⟩)],
        [("a_to_b", ⟨"a_to_b", "a", "b", "d", false⟩),
         ("b_to_a", ⟨"b_to_a", "b", "a", "d", false⟩)]⟩ "a" "b"
      = some ⟨"a_to_b", "a", "b", "d", false⟩ ∧
    get_edge ⟨[("a", ⟨"", {"b"}, {"b"}⟩), ("b", ⟨"", {"a"}, {"a"}⟩)],
        [("a_to_b", ⟨"a_to_b", "a", "b", "d", false⟩),
         ("b_to_a", ⟨"b_to_a", "b", "a", "d", false⟩)]⟩ "b" "a"
      = some ⟨"b_to_a", "b", "a", "d", false⟩ ∧
    nxEdgeMultiplicity (build_networkx
      ⟨[("a", ⟨"", {"b"}, {"b"}⟩), ("b", ⟨"", {"a"}, {"a"}⟩)],
        [("a_to_b", ⟨"a_to_b", "a", "b", "d", false⟩),
         ("b_to_a", ⟨"b_to_a", "b", "a", "d", false⟩)]⟩) "a" "b" = 1 ∧
    ¬ 1 < (1 : Nat) := by decide

/-- C10 (amended).  `build_networkx` does stream every node document and
every edge record (each record's endpoints end up connected in the
graph), and the loop indeed performs one `add_edge` call per record
without deduplicating the forward/reverse pair — but the in-memory
object is an undirected *simple* graph, so every edge's materialized
multiplicity is at most one; multiplicity greater than one cannot
occur for any store state. -/
theorem C10_build_networkx_simple (st : KGState) :
    (∀ p ∈ st.nodes, p.1 ∈ (build_networkx st).nodes) ∧
    (∀ p ∈ st.edges, nxHasEdge (build_networkx st) p.2.source_uid p.2.target_uid
      = true) ∧
    (∀ u v, nxEdgeMultiplicity (build_networkx st) u v ≤ 1) := by
  refine ⟨?_, ?_, ?_⟩
  · intro p hp
    exact foldl_addEdge_nodes_mono st.edges _ p.1
      (foldl_addNode_mem st.nodes ⟨[], []⟩ p hp)
  · intro p hp
    exact foldl_addEdge_hasEdge st.edges _ p hp
  · intro u v
    refine foldl_addEdge_mult_le st.edges _ ?_ u v
    intro u' v'
    simp [nxEdgeMultiplicity, foldl_addNode_edges]
/-- Witness for C10's bounded quantifiers at a concrete store holding an
undirected record pair. -/
theorem C10_build_networkx_simple_witness :
    (("a", (⟨"", {"b"}, {"b"}⟩ : NodeData)) ∈
      (⟨[("a", ⟨"", {"b"}, {"b"}⟩), ("b", ⟨"", {"a"}, {"a"}⟩)],
        [("a_to_b", ⟨"a_to_b", "a", "b", "d", false⟩),
         ("b_to_a", ⟨"b_to_a", "b", "a", "d", false⟩)]⟩ : KGState).nodes ∧
      ("a_to_b", (⟨"a_to_b", "a", "b", "d", false⟩ : EdgeDoc)) ∈
      (⟨[("a", ⟨"", {"b"}, {"b"}⟩), ("b", ⟨"", {"a"}, {"a"}⟩)],
        [("a_to_b", ⟨"a_to_b", "a", "b", "d", false⟩),
         ("b_to_a", ⟨"b_to_a", "b", "a", "d", false⟩)]⟩ : KGState).edges) ∧
    ("a" ∈ (build_networkx ⟨[("a", ⟨"", {"b"}, {"b"}⟩), ("b", ⟨"", {"a"}, {"a"}⟩)],
        [("a_to_b", ⟨"a_to_b", "a", "b", "d", false⟩),
         ("b_to_a", ⟨"b_to_a", "b", "a", "d", false⟩)]⟩).nodes ∧
      nxHasEdge (build_networkx ⟨[("a", ⟨"", {"b"}, {"b"}⟩), ("b", ⟨"", {"a"}, {"a"}⟩)],
        [("a_to_b", ⟨"a_to_b", "a", "b", "d", false⟩),
         ("b_to_a", ⟨"b_to_a", "b", "a", "d", false⟩)]⟩) "a" "b" = true ∧
      nxEdgeMultiplicity (build_networkx ⟨[("a", ⟨"", {"b"}, {"b"}⟩),
        ("b", ⟨"", {"a"}, {"a"}⟩)],
        [("a_to_b", ⟨"a_to_b", "a", "b", "d", false⟩),
         ("b_to_a", ⟨"b_to_a", "b", "a", "d", false⟩)]⟩) "a" "b" ≤ 1) :=
  ⟨⟨by decide, by decide⟩,
    (C10_build_networkx_simple ⟨[("a", ⟨"", {"b"}, {"b"}⟩), ("b", ⟨"", {"a"}, {"a"}⟩)],
        [("a_to_b", ⟨"a_to_b", "a", "b", "d", false⟩),
         ("b_to_a", ⟨"b_to_a", "b", "a", "d", false⟩)]⟩).1
      ("a", ⟨"", {"b"}, {"b"}⟩) (by decide),
    (C10_build_networkx_simple ⟨[("a", ⟨"", {"b"}, {"b"}⟩), ("b", ⟨"", {"a"}, {"a"}⟩)],
        [("a_to_b", ⟨"a_to_b", "a", "b", "d", false⟩),
         ("b_to_a", ⟨"b_to_a", "b", "a", "d", false⟩)]⟩).2.1
      ("a_to_b", ⟨"a_to_b", "a", "b", "d", false⟩) (by decide),
    (C10_build_networkx_simple ⟨[("a", ⟨"", {"b"}, {"b"}⟩), ("b", ⟨"", {"a"}, {"a"}⟩)],
        [("a_to_b", ⟨"a_to_b", "a", "b", "d", false⟩),
         ("b_to_a", ⟨"b_to_a", "b", "a", "d", false⟩)]⟩).2.2 "a" "b"⟩
